import Mathlib

/-!
Verification of the GreenScreen-Remover repository against its
natural-language specification.

The repository is an Electron application whose processing work is the
construction of FFmpeg commands.  The development below shallowly embeds:

- the detect-green-color IPC handler (src/public/electron.js, lines 169-299):
  corner-pixel sampling, green-dominant selection and the hex formatting of
  the result, together with its fallback behaviour;
- the process-video IPC handler (src/public/electron.js, lines 301-451):
  the filter-graph and output-option construction, modelled structurally
  (one constructor per FFmpeg filter / option group the source emits),
  plus a per-pixel semantics of the constructed filter graphs in which the
  chromakey classifier is an abstract parameter;
- the renderer processVideoToPath mapping from UI settings to handler
  options (src/unnamed/part_002, lines 72-103);
- the get-video-url handler and the local-video protocol handler
  (src/public/electron.js, lines 83-106 and 153-158), over a list-of-chars
  model of JS strings, with percent-encoding and a model of Node
  path.posix.join.
-/

/-- One 8-bit RGB sample, as read from the raw rgb24 pixel files produced by
the corner crops in detect-green-color (electron.js lines 220-226). -/
structure RGBPix where
  r : Nat
  g : Nat
  b : Nat
deriving DecidableEq, Repr

/-- Lowercase hexadecimal digit, as produced by the JS Number.toString(16)
used when formatting the detected color (electron.js lines 274-277). -/
def hexDigit (n : Nat) : Char :=
  if n < 10 then Char.ofNat (48 + n) else Char.ofNat (87 + n)

/-- Two-digit lowercase hex of a byte: toString(16) followed by
padStart(2, the zero digit), for byte values (electron.js lines 274-277). -/
def toHexByte (n : Nat) : String :=
  String.mk [hexDigit (n / 16 % 16), hexDigit (n % 16)]

/-- Hex color string built from a sampled pixel (electron.js lines 274-277). -/
def hexColor (p : RGBPix) : String :=
  "#" ++ toHexByte p.r ++ toHexByte p.g ++ toHexByte p.b

/-- Input cases of the detect-green-color handler, by failure stage:
an invalid or missing video path (electron.js line 172), an error event from
the frame extraction command (line 293), or the list of the four corner-pixel
reads, where a read that failed or returned short data is recorded as none
(lines 206-253). -/
inductive DetectInput where
  | badPath
  | extractError
  | pixels (ps : List (Option RGBPix))

/-- The selection loop of detect-green-color (electron.js lines 263-271):
starting from maxGreen = 0 and bestPixel = validPixels[0], a pixel replaces
the current best exactly when its green channel strictly exceeds its red and
blue channels and the running maximum. -/
def greenLoop : List RGBPix → Nat → RGBPix → RGBPix
  | [], _, best => best
  | p :: rest, maxGreen, best =>
    if p.g > p.r ∧ p.g > p.b ∧ p.g > maxGreen then greenLoop rest p.g p
    else greenLoop rest maxGreen best

/-- The detect-green-color handler result (electron.js lines 169-299): the
default key color on a bad path, an extraction error, or an empty valid-pixel
list; otherwise the hex of the pixel chosen by the selection loop started at
the first valid pixel. -/
def detectGreenColor : DetectInput → String
  | .badPath => "#00ff00"
  | .extractError => "#00ff00"
  | .pixels ps =>
    let validPixels := ps.filterMap id
    match validPixels with
    | [] => "#00ff00"
    | p0 :: _ => hexColor (greenLoop validPixels 0 p0)

/-- Every code path of the detect-green-color promise calls resolve
(electron.js lines 174, 258, 281, 290, 295); reject is never invoked, which
this wrapper records as the result always being ok. -/
def detectGreenColorResult (i : DetectInput) : Except String String :=
  .ok (detectGreenColor i)

/-- A sample is green-dominant when its green channel strictly exceeds both
other channels (the condition tested at electron.js line 267). -/
def greenDominant (p : RGBPix) : Prop :=
  p.g > p.r ∧ p.g > p.b

instance (p : RGBPix) : Decidable (greenDominant p) := by
  unfold greenDominant; infer_instance

/-- Dominant-channel margin of a sample, as the specification describes the
selection criterion: the largest amount by which one channel exceeds both
other channels. -/
def chanMargin (p : RGBPix) : Int :=
  max ((p.r : Int) - max (p.g : Int) (p.b : Int))
    (max ((p.g : Int) - max (p.r : Int) (p.b : Int))
      ((p.b : Int) - max (p.r : Int) (p.g : Int)))

/-- Invariant of the selection loop: the result is the initial best or a
green-dominant list element beating the initial running maximum, and every
green-dominant list element beating the initial running maximum is dominated
in green by the (then green-dominant) result. -/
theorem greenLoop_invariant (ps : List RGBPix) :
    ∀ (mg : Nat) (best : RGBPix),
      (greenLoop ps mg best = best ∨
        (greenLoop ps mg best ∈ ps ∧ greenDominant (greenLoop ps mg best) ∧
          mg < (greenLoop ps mg best).g)) ∧
      (∀ p ∈ ps, greenDominant p → mg < p.g →
        greenDominant (greenLoop ps mg best) ∧ p.g ≤ (greenLoop ps mg best).g) := by
  induction ps with
  | nil => intro mg best; simp [greenLoop]
  | cons p rest ih =>
    intro mg best
    by_cases hc : p.g > p.r ∧ p.g > p.b ∧ p.g > mg
    · have hgl : greenLoop (p :: rest) mg best = greenLoop rest p.g p := by
        simp [greenLoop, hc]
      obtain ⟨ih1, ih2⟩ := ih p.g p
      constructor
      · rcases ih1 with h | ⟨hmem, hgd, hlt⟩
        · right
          refine ⟨by simp [hgl, h], ?_, ?_⟩
          · rw [hgl, h]; exact ⟨hc.1, hc.2.1⟩
          · rw [hgl, h]; exact hc.2.2
        · right
          exact ⟨by simp [hgl]; right; exact hmem, by rw [hgl]; exact hgd,
            by rw [hgl]; exact lt_trans hc.2.2 hlt⟩
      · intro q hq hqd hqg
        rcases List.mem_cons.mp hq with rfl | hqrest
        · rcases ih1 with h | ⟨_, hgd, hlt⟩
          · rw [hgl, h]; exact ⟨⟨hc.1, hc.2.1⟩, le_refl _⟩
          · rw [hgl]; exact ⟨hgd, le_of_lt hlt⟩
        · by_cases hqp : p.g < q.g
          · have := ih2 q hqrest hqd hqp
            rw [hgl]; exact this
          · push_neg at hqp
            rcases ih1 with h | ⟨_, hgd, hlt⟩
            · rw [hgl, h]; exact ⟨⟨hc.1, hc.2.1⟩, hqp⟩
            · rw [hgl]; exact ⟨hgd, le_trans hqp (le_of_lt hlt)⟩
    · have hgl : greenLoop (p :: rest) mg best = greenLoop rest mg best := by
        simp [greenLoop, hc]
      obtain ⟨ih1, ih2⟩ := ih mg best
      constructor
      · rcases ih1 with h | ⟨hmem, hgd, hlt⟩
        · left; rw [hgl]; exact h
        · right; exact ⟨by simp [hgl]; right; exact hmem, by rw [hgl]; exact hgd,
            by rw [hgl]; exact hlt⟩
      · intro q hq hqd hqg
        rcases List.mem_cons.mp hq with rfl | hqrest
        · exact absurd ⟨hqd.1, hqd.2, hqg⟩ hc
        · rw [hgl]; exact ih2 q hqrest hqd hqg

/-- A green-dominant sample has nonzero green channel. -/
theorem greenDominant_pos {p : RGBPix} (h : greenDominant p) : 0 < p.g :=
  Nat.lt_of_le_of_lt (Nat.zero_le _) h.1

/-- Mapping a list into some and filtering the options back out is the
identity. -/
theorem filterMap_id_map_some (ps : List RGBPix) :
    (ps.map Option.some).filterMap id = ps := by
  induction ps with
  | nil => rfl
  | cons p rest ih => simp [List.filterMap, ih]

/-- C4 (amended): the detector returns the default key color when the path is
invalid, when frame extraction errors out, or when no corner read yields valid
pixel data, and its promise always resolves (never rejects); but when valid
samples exist and none is green-dominant, it returns the first valid sample
rather than the default. -/
theorem c4_detection_fallback :
    (∀ i, detectGreenColorResult i = Except.ok (detectGreenColor i)) ∧
    detectGreenColor DetectInput.badPath = "#00ff00" ∧
    detectGreenColor DetectInput.extractError = "#00ff00" ∧
    (∀ ps : List (Option RGBPix), ps.filterMap id = [] →
      detectGreenColor (DetectInput.pixels ps) = "#00ff00") ∧
    (∀ (ps : List (Option RGBPix)) (p0 : RGBPix) (rest : List RGBPix),
      ps.filterMap id = p0 :: rest →
      (∀ p ∈ ps.filterMap id, ¬ greenDominant p) →
      detectGreenColor (DetectInput.pixels ps) = hexColor p0) := by
  refine ⟨fun i => rfl, rfl, rfl, ?_, ?_⟩
  · intro ps h
    simp [detectGreenColor, h]
  · intro ps p0 rest h hng
    have hsel : greenLoop (p0 :: rest) 0 p0 = p0 := by
      rcases (greenLoop_invariant rest 0 p0).1 with heq | ⟨hmem, hgd, _⟩
      · by_cases hp0 : p0.g > p0.r ∧ p0.g > p0.b ∧ p0.g > 0
        · exact absurd ⟨hp0.1, hp0.2.1⟩ (hng p0 (h ▸ List.mem_cons_self p0 rest))
        · simp [greenLoop, hp0]
          rcases (greenLoop_invariant rest 0 p0).1 with heq2 | ⟨_, hgd2, _⟩
          · exact heq2
          · exact absurd hgd2 (hng _ (h ▸ List.mem_cons_of_mem p0 (by
              rcases (greenLoop_invariant rest 0 p0).1 with heq3 | ⟨hm3, _, _⟩
              · rw [heq3]; exact absurd (heq3 ▸ hgd2) (hng p0 (h ▸ List.mem_cons_self p0 rest))
              · exact hm3)))
      · exact absurd hgd (hng _ (h ▸ List.mem_cons_of_mem p0 hmem))
    simp only [detectGreenColor, h, hsel]

/-- Witness for C4: concrete instances of the fallback cases. -/
theorem c4_detection_fallback_witness :
    detectGreenColor (DetectInput.pixels [Option.none]) = "#00ff00" ∧
    detectGreenColor (DetectInput.pixels [some ⟨9, 3, 5⟩]) = hexColor ⟨9, 3, 5⟩ := by
  exact ⟨c4_detection_fallback.2.2.2.1 [Option.none] (by decide),
    c4_detection_fallback.2.2.2.2 [some ⟨9, 3, 5⟩] ⟨9, 3, 5⟩ [] (by decide) (by decide)⟩

/-- Counterexample for C4: sampling succeeds, no sample is conclusively
dominant (the single sample is red-dominant), yet the detector returns that
sample rather than the default key color. -/
theorem c4_counterexample :
    (¬ greenDominant ⟨200, 0, 0⟩) ∧
    detectGreenColor (DetectInput.pixels [some ⟨200, 0, 0⟩]) = "#c80000" ∧
    "#c80000" ≠ "#00ff00" := by decide

/-- C5 (amended): on a nonempty sample list, the selection loop started at the
first sample returns a sample of the list; among green-dominant samples (green
strictly above red and blue) it maximises the absolute green channel value,
and it is green-dominant whenever any sample is; when no sample is
green-dominant it returns the first sample.  The detector output is the hex of
that selection.  Selection is hardcoded to the green channel and uses the raw
green value, not the dominant-channel margin. -/
theorem c5_selection_by_max_green (ps : List RGBPix) (p0 : RGBPix)
    (rest : List RGBPix) (h : ps = p0 :: rest) :
    greenLoop ps 0 p0 ∈ ps ∧
    (∀ p ∈ ps, greenDominant p → p.g ≤ (greenLoop ps 0 p0).g) ∧
    ((∃ p ∈ ps, greenDominant p) → greenDominant (greenLoop ps 0 p0)) ∧
    ((∀ p ∈ ps, ¬ greenDominant p) → greenLoop ps 0 p0 = p0) ∧
    detectGreenColor (DetectInput.pixels (ps.map Option.some)) =
      hexColor (greenLoop ps 0 p0) := by
  subst h
  obtain ⟨inv1, inv2⟩ := greenLoop_invariant (p0 :: rest) 0 p0
  refine ⟨?_, ?_, ?_, ?_, ?_⟩
  · rcases inv1 with heq | ⟨hmem, _, _⟩
    · rw [heq]; exact List.mem_cons_self p0 rest
    · exact hmem
  · intro p hp hpd
    exact (inv2 p hp hpd (greenDominant_pos hpd)).2
  · rintro ⟨p, hp, hpd⟩
    exact (inv2 p hp hpd (greenDominant_pos hpd)).1
  · intro hng
    rcases inv1 with heq | ⟨hmem, hgd, _⟩
    · exact heq
    · exact absurd hgd (hng _ hmem)
  · simp only [detectGreenColor, filterMap_id_map_some]

/-- Witness for C5: a concrete two-sample list with a green-dominant sample. -/
theorem c5_selection_by_max_green_witness :
    greenLoop [⟨10, 20, 5⟩, ⟨0, 30, 0⟩] 0 ⟨10, 20, 5⟩ ∈
      [(⟨10, 20, 5⟩ : RGBPix), ⟨0, 30, 0⟩] ∧
    detectGreenColor (DetectInput.pixels ([⟨10, 20, 5⟩, ⟨0, 30, 0⟩].map Option.some)) =
      hexColor (greenLoop [⟨10, 20, 5⟩, ⟨0, 30, 0⟩] 0 ⟨10, 20, 5⟩) := by
  have h := c5_selection_by_max_green [⟨10, 20, 5⟩, ⟨0, 30, 0⟩] ⟨10, 20, 5⟩ [⟨0, 30, 0⟩] rfl
  exact ⟨h.1, h.2.2.2.2⟩

/-- Counterexample for C5: the sample with the strongest dominant-channel
margin is the pure green one (margin 200), but the detector selects the washed
out sample with the marginally higher raw green channel (margin 2), so the
claimed strongest-margin selection does not hold. -/
theorem c5_counterexample :
    greenLoop [⟨0, 200, 0⟩, ⟨199, 201, 199⟩] 0 ⟨0, 200, 0⟩ = ⟨199, 201, 199⟩ ∧
    chanMargin ⟨0, 200, 0⟩ = 200 ∧
    chanMargin ⟨199, 201, 199⟩ = 2 ∧
    detectGreenColor (DetectInput.pixels [some ⟨0, 200, 0⟩, some ⟨199, 201, 199⟩]) =
      hexColor ⟨199, 201, 199⟩ ∧
    hexColor ⟨199, 201, 199⟩ ≠ hexColor ⟨0, 200, 0⟩ := by decide

/-- Audio mode selector offered by the renderer UI (src/unnamed/part_002,
lines 19 and 369-380). -/
inductive AudioMode where
  | foreground
  | background
  | mix
  | none
deriving DecidableEq, Repr

/-- Background replacement kind selected in the renderer
(src/unnamed/part_002, line 18). -/
inductive BgType where
  | image
  | video
deriving DecidableEq, Repr

/-- The options object sent to the process-video handler
(src/unnamed/part_002, lines 93-103).  The handler itself destructures only
the first six fields (electron.js line 302). -/
structure ProcessOptions where
  inputPath : String
  outputPath : String
  color : String
  similarity : ℚ
  blend : ℚ
  edgeBlur : ℚ
  backgroundPath : Option String := Option.none
  backgroundType : Option BgType := Option.none
  audioMode : AudioMode := AudioMode.foreground

/-- Structural form of the FFmpeg video filters the handler emits, one
constructor per filter kind appearing in the built filter strings
(electron.js lines 318-361).  Parameters mirror the interpolated values:
chromakey color, similarity and blend; boxblur luma radius, luma power and
chroma power; the color source with its named color, size and rate; scale2ref;
overlay with its shortest flag. -/
inductive VFilter where
  | chromakey (color : String) (similarity blend : ℚ)
  | boxblur (lumaRadius lumaPower chromaPower : ℚ)
  | colorSrc (c : String) (w h rate : Nat)
  | scale2ref
  | overlay (shortestFlag : Bool)
deriving DecidableEq, Repr

/-- One statement of a complex filter graph: input labels, a filter chain and
output labels, mirroring the semicolon-separated entries of the MP4 filter
string (electron.js lines 335-360). -/
structure FilterStmt where
  inputs : List String
  chain : List VFilter
  outputs : List String
deriving DecidableEq, Repr

/-- Structural form of the FFmpeg command the handler assembles
(electron.js lines 305-418): input, the simple -vf chain or the
-filter_complex graph, -map arguments, video codec, pixel format, audio codec
and bitrate, the WebM-only extra flags, the flags added for every job, and
the output path. -/
structure FfmpegCommand where
  input : String
  simpleFilter : Option (List VFilter)
  complexFilter : Option (List FilterStmt)
  maps : List String
  videoCodec : String
  pixFmt : String
  audioCodec : String
  audioBitrate : String
  webmExtra : List String
  globalExtra : List String
  output : String
deriving DecidableEq, Repr

/-- Lowercasing of a JS string, character by character. -/
def strToLower (s : String) : String :=
  String.mk (s.data.map Char.toLower)

/-- Suffix test on JS strings, over their character lists. -/
def strEndsWith (s suffix : String) : Bool :=
  decide (s.data.reverse.take suffix.data.length = suffix.data.reverse)

/-- Output-format test of the handler (electron.js line 308): the lowercased
output path ends in the webm extension. -/
def isWebM (outputPath : String) : Bool :=
  strEndsWith (strToLower outputPath) ".webm"

/-- The WebM simple filter chain (electron.js lines 320-330): chromakey, then
boxblur with luma radius and power equal to edgeBlur and chroma power 1, added
only when edgeBlur is positive. -/
def webmFilters (o : ProcessOptions) : List VFilter :=
  [VFilter.chromakey o.color o.similarity o.blend] ++
    (if o.edgeBlur > 0 then [VFilter.boxblur o.edgeBlur o.edgeBlur 1] else [])

/-- The MP4 foreground chain (electron.js lines 337-344): chromakey on the
video stream, then the same conditional boxblur. -/
def mp4ForegroundChain (o : ProcessOptions) : List VFilter :=
  [VFilter.chromakey o.color o.similarity o.blend] ++
    (if o.edgeBlur > 0 then [VFilter.boxblur o.edgeBlur o.edgeBlur 1] else [])

/-- The MP4 complex filter graph (electron.js lines 335-360): keyed foreground
labelled fg, a black 2x2 color source labelled bgsrc, scale2ref of bgsrc
against fg producing bg and fg_scaled, and the overlay producing out. -/
def mp4Filters (o : ProcessOptions) : List FilterStmt :=
  [ { inputs := ["0:v"], chain := mp4ForegroundChain o, outputs := ["fg"] },
    { inputs := [], chain := [VFilter.colorSrc "black" 2 2 25], outputs := ["bgsrc"] },
    { inputs := ["bgsrc", "fg"], chain := [VFilter.scale2ref],
      outputs := ["bg", "fg_scaled"] },
    { inputs := ["bg", "fg_scaled"], chain := [VFilter.overlay true],
      outputs := ["out"] } ]

/-- Assembly of the full command from the options (electron.js lines 305-418):
the WebM branch uses the simple chain, vp9, yuva420p and opus with the
alt-ref and lag flags; the MP4 branch uses the complex graph, maps the
filtered video stream and the optional source audio stream, and uses x264,
yuv420p and aac.  Both branches add the timestamp flags. -/
def buildCommand (o : ProcessOptions) : FfmpegCommand :=
  if isWebM o.outputPath then
    { input := o.inputPath
      simpleFilter := some (webmFilters o)
      complexFilter := Option.none
      maps := []
      videoCodec := "libvpx-vp9"
      pixFmt := "yuva420p"
      audioCodec := "libopus"
      audioBitrate := "192k"
      webmExtra := ["-auto-alt-ref", "0", "-lag-in-frames", "0"]
      globalExtra := ["-avoid_negative_ts", "make_zero", "-fflags", "+genpts"]
      output := o.outputPath }
  else
    { input := o.inputPath
      simpleFilter := Option.none
      complexFilter := some (mp4Filters o)
      maps := ["[out]", "0:a?"]
      videoCodec := "libx264"
      pixFmt := "yuv420p"
      audioCodec := "aac"
      audioBitrate := "192k"
      webmExtra := []
      globalExtra := ["-avoid_negative_ts", "make_zero", "-fflags", "+genpts"]
      output := o.outputPath }

/-- Start of a process-video job (electron.js lines 301-451): the handler
performs no validation of the options; it unconditionally builds the command
and runs it.  The Except wrapper records the absence of any pre-flight
configuration error path in the source. -/
def processVideoStart (o : ProcessOptions) : Except String FfmpegCommand :=
  .ok (buildCommand o)

/-- Invalid KeySettings in the sense of the specification error taxonomy:
similarity at most 0 or above 1, blend outside the unit interval, or a
negative edge-blur radius. -/
def specInvalidKeySettings (o : ProcessOptions) : Prop :=
  o.similarity ≤ 0 ∨ o.similarity > 1 ∨ o.blend < 0 ∨ o.blend > 1 ∨ o.edgeBlur < 0

/-- The renderer chroma-key settings (src/unnamed/part_002, lines 11-15):
hex color string, strength slider in 0-100 and edge blur slider in 0-100. -/
structure UISettings where
  color : String
  strength : ℚ
  edgeBlur : ℚ

/-- The options object built by processVideoToPath (src/unnamed/part_002,
lines 77-103): color reformatted with the 0x base designator, similarity from
the linear strength formula, constant blend of 0.1, and the edge blur slider
scaled down by 10. -/
def processVideoOptions (s : UISettings) (inputPath outputPath : String)
    (backgroundPath : Option String) (backgroundType : Option BgType)
    (audioMode : AudioMode) : ProcessOptions :=
  { inputPath := inputPath
    outputPath := outputPath
    color := "0x" ++ s.color.replace "#" ""
    similarity := 0.01 + (s.strength / 100) * 0.39
    blend := 0.1
    edgeBlur := s.edgeBlur / 10
    backgroundPath := backgroundPath
    backgroundType := backgroundType
    audioMode := audioMode }

/-- An options object with invalid KeySettings: similarity 2 is above 1. -/
def oInvalid : ProcessOptions :=
  { inputPath := "in.mp4", outputPath := "out.mp4", color := "0x00ff00",
    similarity := 2, blend := 0.1, edgeBlur := 0 }

/-- The same invalid similarity on the WebM output path. -/
def oInvalidWebm : ProcessOptions :=
  { inputPath := "in.mp4", outputPath := "out.webm", color := "0x00ff00",
    similarity := 2, blend := 0.1, edgeBlur := 0 }

/-- Counterexample for C2: for an options object whose similarity is 2
(invalid per the specification), the handler does not surface any
configuration error; it builds the FFmpeg command and starts the job. -/
theorem c2_counterexample :
    specInvalidKeySettings oInvalid ∧
    processVideoStart oInvalid = Except.ok (buildCommand oInvalid) := by
  exact ⟨Or.inr (Or.inl (by norm_num [oInvalid])), rfl⟩

/-- C2 (amended): the process-video handler performs no pre-flight
validation: even for options with invalid KeySettings no configuration error
is surfaced, the command is built and run, and the invalid similarity and
blend values are embedded verbatim in the chromakey filter of the built
command. -/
theorem c2_no_validation (o : ProcessOptions) (h : specInvalidKeySettings o) :
    processVideoStart o = Except.ok (buildCommand o) ∧
    (isWebM o.outputPath = true →
      ∃ rest, (buildCommand o).simpleFilter =
        some (VFilter.chromakey o.color o.similarity o.blend :: rest)) ∧
    (isWebM o.outputPath = false →
      ∃ rest stmts, (buildCommand o).complexFilter =
        some ({ inputs := ["0:v"],
                chain := VFilter.chromakey o.color o.similarity o.blend :: rest,
                outputs := ["fg"] } :: stmts)) := by
  refine ⟨rfl, ?_, ?_⟩
  · intro hw
    exact ⟨if o.edgeBlur > 0 then [VFilter.boxblur o.edgeBlur o.edgeBlur 1] else [],
      by simp [buildCommand, hw, webmFilters]⟩
  · intro hw
    refine ⟨if o.edgeBlur > 0 then [VFilter.boxblur o.edgeBlur o.edgeBlur 1] else [],
      [ { inputs := [], chain := [VFilter.colorSrc "black" 2 2 25],
          outputs := ["bgsrc"] },
        { inputs := ["bgsrc", "fg"], chain := [VFilter.scale2ref],
          outputs := ["bg", "fg_scaled"] },
        { inputs := ["bg", "fg_scaled"], chain := [VFilter.overlay true],
          outputs := ["out"] } ], ?_⟩
    simp [buildCommand, hw, mp4Filters, mp4ForegroundChain]

/-- Witness for C2 (amended): the invalid WebM options instance. -/
theorem c2_no_validation_witness :
    ∃ rest, (buildCommand oInvalidWebm).simpleFilter =
      some (VFilter.chromakey "0x00ff00" 2 (0.1 : ℚ) :: rest) :=
  (c2_no_validation oInvalidWebm (Or.inr (Or.inl (by norm_num [oInvalidWebm])))).2.1
    (by decide)

/-- The failing input for C3: an MP4 export with a background video selected
and the audio mode set to none. -/
def oAudioNone : ProcessOptions :=
  { inputPath := "in.mp4", outputPath := "out.mp4", color := "0x00ff00",
    similarity := 0.2, blend := 0.1, edgeBlur := 0,
    backgroundPath := some "bg.mp4", backgroundType := some BgType.video,
    audioMode := AudioMode.none }

/-- C3 (code bug): with audio mode none the built MP4 command still maps the
source audio stream and encodes it with aac, so the output is not silent; and
the built command is invariant under the audio mode entirely, so the mix mode
pass-through behaviour promised by the UI is also absent. -/
theorem c3_audio_mode_ignored :
    oAudioNone.audioMode = AudioMode.none ∧
    (buildCommand oAudioNone).maps = ["[out]", "0:a?"] ∧
    (buildCommand oAudioNone).audioCodec = "aac" ∧
    (∀ m : AudioMode,
      buildCommand { oAudioNone with audioMode := m } = buildCommand oAudioNone) := by
  exact ⟨rfl, by decide, by decide, fun m => rfl⟩

/-- C8: the mapping from the strength slider to the FFmpeg parameters is the
fixed linear formula with blend constant: similarity is 0.01 plus 0.39 times
the normalized strength, giving 0.01 at strength 0 and 0.4 at strength 100,
staying inside that interval across the slider range, while blend is 0.1. -/
theorem c8_strength_mapping (s : UISettings) (ip op : String)
    (bp : Option String) (bt : Option BgType) (am : AudioMode)
    (h0 : 0 ≤ s.strength) (h1 : s.strength ≤ 100) :
    (processVideoOptions s ip op bp bt am).similarity =
      0.01 + (s.strength / 100) * 0.39 ∧
    (processVideoOptions s ip op bp bt am).blend = 0.1 ∧
    (s.strength = 0 → (processVideoOptions s ip op bp bt am).similarity = 0.01) ∧
    (s.strength = 100 → (processVideoOptions s ip op bp bt am).similarity = 0.4) ∧
    0.01 ≤ (processVideoOptions s ip op bp bt am).similarity ∧
    (processVideoOptions s ip op bp bt am).similarity ≤ 0.4 := by
  refine ⟨rfl, rfl, ?_, ?_, ?_, ?_⟩
  · intro h; simp only [processVideoOptions, h]; norm_num
  · intro h; simp only [processVideoOptions, h]; norm_num
  · simp only [processVideoOptions]; nlinarith
  · simp only [processVideoOptions]; nlinarith

/-- Witness for C8: the strength slider at 50. -/
theorem c8_strength_mapping_witness :
    (processVideoOptions ⟨"#00ff00", 50, 0⟩ "in.mp4" "out.mp4" Option.none
      Option.none AudioMode.foreground).similarity =
        0.01 + ((50 : ℚ) / 100) * 0.39 ∧
    (processVideoOptions ⟨"#00ff00", 50, 0⟩ "in.mp4" "out.mp4" Option.none
      Option.none AudioMode.foreground).blend = 0.1 := by
  have h := c8_strength_mapping ⟨"#00ff00", 50, 0⟩ "in.mp4" "out.mp4" Option.none
    Option.none AudioMode.foreground (by norm_num) (by norm_num)
  exact ⟨h.1, h.2.1⟩

/-- C9: the built command depends only on the six destructured fields; two
options objects agreeing on input path, output path, color, similarity, blend
and edge blur produce identical commands regardless of background path,
background type and audio mode. -/
theorem c9_background_audio_noninfluence (o1 o2 : ProcessOptions)
    (hin : o1.inputPath = o2.inputPath) (hout : o1.outputPath = o2.outputPath)
    (hc : o1.color = o2.color) (hs : o1.similarity = o2.similarity)
    (hb : o1.blend = o2.blend) (he : o1.edgeBlur = o2.edgeBlur) :
    buildCommand o1 = buildCommand o2 := by
  simp only [buildCommand, webmFilters, mp4Filters, mp4ForegroundChain,
    hin, hout, hc, hs, hb, he]

/-- Options without any background or audio selection. -/
def oBgA : ProcessOptions :=
  { inputPath := "in.mp4", outputPath := "out.webm", color := "0x00ff00",
    similarity := 0.2, blend := 0.1, edgeBlur := 1 }

/-- The same six core fields with a background image and mixed audio. -/
def oBgB : ProcessOptions :=
  { oBgA with backgroundPath := some "bg.png"
              backgroundType := some BgType.image
              audioMode := AudioMode.mix }

/-- Witness for C9: the two concrete options differing only in background and
audio selections get the same command. -/
theorem c9_background_audio_noninfluence_witness :
    buildCommand oBgA = buildCommand oBgB :=
  c9_background_audio_noninfluence oBgA oBgB rfl rfl rfl rfl rfl rfl

/-- A decoded pixel with rational color channels and an alpha channel, the
value domain over which the constructed filter graphs are interpreted. -/
structure RGBA where
  r : ℚ
  g : ℚ
  b : ℚ
  a : ℚ
deriving DecidableEq, Repr

/-- A decoded frame: dimensions and a total pixel function. -/
structure Frame where
  width : Nat
  height : Nat
  px : Nat → Nat → RGBA

/-- Abstract chromakey classifier: given the key color string, the similarity
and blend parameters and a pixel, the keying weight (1 means fully keyed).
The classifier itself lives inside FFmpeg, outside the repository, so the
semantics is parameterized over it. -/
def Classifier : Type :=
  String → ℚ → ℚ → RGBA → ℚ

/-- Semantics of the chromakey filter: color channels are untouched and the
alpha channel becomes one minus the classifier weight of the pixel. -/
def applyChromakey (kw : Classifier) (color : String) (sim blend : ℚ)
    (f : Frame) : Frame :=
  { f with px := fun x y =>
      let p := f.px x y
      { p with a := 1 - kw color sim blend p } }

/-- Indices of the blur window of radius rad around coordinate c, clamped to
the axis bound. -/
def clampWindow (c rad bound : Nat) : List Nat :=
  (List.range bound).filter (fun i => decide (c - rad ≤ i ∧ i ≤ c + rad))

/-- Average of a list of rationals, zero on an empty list. -/
def boxAvg (vals : List ℚ) : ℚ :=
  if vals.length = 0 then 0 else vals.sum / vals.length

/-- One box-blur pass of the given radius over every channel of the frame,
color channels included, with the kernel clamped at the frame bounds. -/
def boxblurOnce (rad : Nat) (f : Frame) : Frame :=
  { f with px := fun x y =>
      let cells :=
        (clampWindow x rad f.width).flatMap
          (fun i => (clampWindow y rad f.height).map (fun j => f.px i j))
      { r := boxAvg (cells.map RGBA.r)
        g := boxAvg (cells.map RGBA.g)
        b := boxAvg (cells.map RGBA.b)
        a := boxAvg (cells.map RGBA.a) } }

/-- Semantics of the boxblur filter as emitted by the handler: the radius and
the pass count (luma power) are the truncated values of its rational
parameters, and every plane is blurred. -/
def boxblurFrame (radius power : ℚ) (f : Frame) : Frame :=
  Nat.iterate (boxblurOnce radius.floor.toNat) power.floor.toNat f

/-- Semantics of the color source filter; the handler only ever constructs
the opaque black source (electron.js line 348). -/
def colorSrcFrame (w h : Nat) : Frame :=
  { width := w, height := h, px := fun _ _ => ⟨0, 0, 0, 1⟩ }

/-- Nearest-neighbour scaling of a frame to the given dimensions, used to
interpret scale2ref. -/
def scaleFrame (w h : Nat) (f : Frame) : Frame :=
  { width := w, height := h,
    px := fun x y => f.px (x * f.width / w) (y * f.height / h) }

/-- Semantics of the overlay filter: source-over compositing of the second
frame on top of the first, at the dimensions of the first. -/
def overlayFrames (bg fg : Frame) : Frame :=
  { width := bg.width, height := bg.height,
    px := fun x y =>
      let p := fg.px x y
      let q := bg.px x y
      { r := p.a * p.r + (1 - p.a) * q.r
        g := p.a * p.g + (1 - p.a) * q.g
        b := p.a * p.b + (1 - p.a) * q.b
        a := p.a + q.a * (1 - p.a) } }

/-- Semantics of a single-input single-output filter. -/
def applyVFilter1 (kw : Classifier) : VFilter → Frame → Frame
  | VFilter.chromakey c s b, f => applyChromakey kw c s b f
  | VFilter.boxblur rad pow _, f => boxblurFrame rad pow f
  | _, f => f

/-- Semantics of a simple filter chain (the -vf case). -/
def applyChain (kw : Classifier) : List VFilter → Frame → Frame
  | [], f => f
  | flt :: rest, f => applyChain kw rest (applyVFilter1 kw flt f)

/-- Semantics of one filter over a list of input frames, covering the
multi-input filters of the complex graph. -/
def applyVFilter (kw : Classifier) : VFilter → List Frame → List Frame
  | VFilter.colorSrc _ w h _, _ => [colorSrcFrame w h]
  | VFilter.scale2ref, [src, ref] => [scaleFrame ref.width ref.height src, ref]
  | VFilter.overlay _, [bg, fg] => [overlayFrames bg fg]
  | flt, [f] => [applyVFilter1 kw flt f]
  | _, fs => fs

/-- Semantics of a filter chain over frame lists. -/
def applyChainMulti (kw : Classifier) : List VFilter → List Frame → List Frame
  | [], fs => fs
  | flt :: rest, fs => applyChainMulti kw rest (applyVFilter kw flt fs)

/-- Label environment lookup; a missing label yields an empty frame. -/
def lookupFrame (env : List (String × Frame)) (label : String) : Frame :=
  match env.find? (fun e => e.1 == label) with
  | some e => e.2
  | Option.none => { width := 0, height := 0, px := fun _ _ => ⟨0, 0, 0, 1⟩ }

/-- Execution of one complex-graph statement: read the labelled inputs, run
the chain, bind the labelled outputs. -/
def runStmt (kw : Classifier) (env : List (String × Frame))
    (st : FilterStmt) : List (String × Frame) :=
  let ins := st.inputs.map (lookupFrame env)
  let outs := applyChainMulti kw st.chain ins
  env ++ st.outputs.zip outs

/-- Execution of a complex filter graph from an initial environment. -/
def runGraph (kw : Classifier) (stmts : List FilterStmt)
    (env0 : List (String × Frame)) : List (String × Frame) :=
  stmts.foldl (runStmt kw) env0

/-- Interpretation of a built command on one decoded input frame: the simple
chain is applied directly; the complex graph is run with the video stream
bound to its label and the mapped out label is read back. -/
def runCommand (kw : Classifier) (cmd : FfmpegCommand) (f : Frame) : Frame :=
  match cmd.simpleFilter with
  | some chain => applyChain kw chain f
  | Option.none =>
    match cmd.complexFilter with
    | some stmts => lookupFrame (runGraph kw stmts [("0:v", f)]) "out"
    | Option.none => f

/-- End-to-end video semantics of the process-video handler on one frame. -/
def runProcessVideo (kw : Classifier) (o : ProcessOptions) (f : Frame) : Frame :=
  runCommand kw (buildCommand o) f

/-- The MP4 foreground chain and the WebM chain are built identically. -/
theorem mp4ForegroundChain_eq_webm (o : ProcessOptions) :
    mp4ForegroundChain o = webmFilters o := rfl

/-- On a singleton frame list, the MP4 foreground chain computes the same
frame as the simple WebM chain. -/
theorem applyChainMulti_fg (kw : Classifier) (o : ProcessOptions) (f : Frame) :
    applyChainMulti kw (mp4ForegroundChain o) [f] =
      [applyChain kw (webmFilters o) f] := by
  by_cases h : o.edgeBlur > 0 <;>
    simp [mp4ForegroundChain, webmFilters, h, applyChainMulti, applyChain,
      applyVFilter, applyVFilter1]

/-- Running the MP4 complex graph composites the keyed foreground over the
black source scaled to the foreground dimensions. -/
theorem runGraph_mp4 (kw : Classifier) (o : ProcessOptions) (f : Frame) :
    lookupFrame (runGraph kw (mp4Filters o) [("0:v", f)]) "out" =
      overlayFrames
        (scaleFrame (applyChain kw (webmFilters o) f).width
          (applyChain kw (webmFilters o) f).height (colorSrcFrame 2 2))
        (applyChain kw (webmFilters o) f) := by
  have hfg := applyChainMulti_fg kw o f
  generalize hF : applyChain kw (webmFilters o) f = fgF at hfg ⊢
  have h2 : applyChainMulti kw [VFilter.colorSrc "black" 2 2 25] [] =
      [colorSrcFrame 2 2] := rfl
  have h3 : ∀ a b : Frame, applyChainMulti kw [VFilter.scale2ref] [a, b] =
      [scaleFrame b.width b.height a, b] := fun a b => rfl
  have h4 : ∀ a b : Frame, applyChainMulti kw [VFilter.overlay true] [a, b] =
      [overlayFrames a b] := fun a b => rfl
  simp only [runGraph, mp4Filters, List.foldl, runStmt, List.map, lookupFrame,
    List.find?, List.append_eq, List.cons_append, List.nil_append, List.zip,
    List.zipWith]
  simp [hfg, h2, h3, h4, lookupFrame, List.find?]

/-- C1: for a job with no background source, a pixel that is fully keyed when
it reaches the compositing stage (alpha 0 after the chromakey stage and any
configured edge blur; with no blur this is exactly classifier weight 1) is
emitted fully transparent on the alpha-capable WebM path with pixel format
yuva420p, and is replaced by opaque black on the opaque MP4 path with pixel
format yuv420p; it is never passed through as the raw key color. -/
theorem c1_background_none_policy (kw : Classifier) (o : ProcessOptions)
    (f : Frame) (x y : Nat)
    (hbg : o.backgroundType = Option.none)
    (hkeyed : ((applyChain kw (webmFilters o) f).px x y).a = 0) :
    (isWebM o.outputPath = true →
      ((runProcessVideo kw o f).px x y).a = 0 ∧
      (buildCommand o).pixFmt = "yuva420p") ∧
    (isWebM o.outputPath = false →
      (runProcessVideo kw o f).px x y = ⟨0, 0, 0, 1⟩ ∧
      (buildCommand o).pixFmt = "yuv420p") := by
  constructor
  · intro hw
    refine ⟨?_, by simp [buildCommand, hw]⟩
    simp only [runProcessVideo, runCommand, buildCommand, hw, if_true]
    exact hkeyed
  · intro hw
    refine ⟨?_, by simp [buildCommand, hw]⟩
    have hrun : runProcessVideo kw o f =
        overlayFrames
          (scaleFrame (applyChain kw (webmFilters o) f).width
            (applyChain kw (webmFilters o) f).height (colorSrcFrame 2 2))
          (applyChain kw (webmFilters o) f) := by
      simp only [runProcessVideo, runCommand, buildCommand, hw]
      exact runGraph_mp4 kw o f
    rw [hrun]
    simp [overlayFrames, scaleFrame, colorSrcFrame, hkeyed]

/-- Classifier that keys exactly the pure green opaque pixel. -/
def kwGreen : Classifier :=
  fun _ _ _ p => if p = ⟨0, 1, 0, 1⟩ then 1 else 0

/-- Concrete MP4 job options with no background and no edge blur. -/
def oMp4 : ProcessOptions :=
  { inputPath := "in.mp4", outputPath := "out.mp4", color := "0x00ff00",
    similarity := 0.4, blend := 0.1, edgeBlur := 0 }

/-- A uniformly green 2 by 2 frame. -/
def greenFrame : Frame :=
  { width := 2, height := 2, px := fun _ _ => ⟨0, 1, 0, 1⟩ }

/-- Witness for C1: on the MP4 path, a fully keyed green pixel comes out as
opaque black. -/
theorem c1_background_none_policy_witness :
    (runProcessVideo kwGreen oMp4 greenFrame).px 0 0 = ⟨0, 0, 0, 1⟩ ∧
    (buildCommand oMp4).pixFmt = "yuv420p" :=
  (c1_background_none_policy kwGreen oMp4 greenFrame 0 0 rfl
    (by simp [applyChain, applyVFilter1, applyChromakey, webmFilters, oMp4,
      kwGreen, greenFrame])).2 (by decide)

/-- C7: with edge blur 0 no blur stage is emitted on either output path, the
keying chain reduces to chromakey alone, and hence the refined frame, and in
particular its alpha mask, equals the unrefined chromakey output pointwise:
the radius 0 edge refiner is the identity. -/
theorem c7_radius_zero_identity (o : ProcessOptions) (h : o.edgeBlur = 0)
    (kw : Classifier) (f : Frame) :
    webmFilters o = [VFilter.chromakey o.color o.similarity o.blend] ∧
    mp4ForegroundChain o = [VFilter.chromakey o.color o.similarity o.blend] ∧
    applyChain kw (webmFilters o) f =
      applyChromakey kw o.color o.similarity o.blend f ∧
    (∀ x y : Nat, ((applyChain kw (webmFilters o) f).px x y).a =
      ((applyChromakey kw o.color o.similarity o.blend f).px x y).a) := by
  have h1 : webmFilters o = [VFilter.chromakey o.color o.similarity o.blend] := by
    simp [webmFilters, h]
  have h3 : applyChain kw (webmFilters o) f =
      applyChromakey kw o.color o.similarity o.blend f := by
    rw [h1]; rfl
  exact ⟨h1, h1, h3, fun x y => by rw [h3]⟩

/-- Witness for C7: the blur-free MP4 options with the green classifier. -/
theorem c7_radius_zero_identity_witness :
    applyChain kwGreen (webmFilters oMp4) greenFrame =
      applyChromakey kwGreen oMp4.color oMp4.similarity oMp4.blend greenFrame :=
  (c7_radius_zero_identity oMp4 rfl kwGreen greenFrame).2.2.1

/-- C6 (amended): with a positive edge blur the emitted chain is chromakey
followed by a boxblur whose luma radius and luma power are the blur value and
whose chroma power is 1, applied to the whole keyed frame; its semantics is a
full-frame box blur of every channel, color channels included, not a blur of
the alpha mask alone. -/
theorem c6_blur_full_frame (o : ProcessOptions) (h : o.edgeBlur > 0)
    (kw : Classifier) (f : Frame) :
    webmFilters o = [VFilter.chromakey o.color o.similarity o.blend,
      VFilter.boxblur o.edgeBlur o.edgeBlur 1] ∧
    mp4ForegroundChain o = webmFilters o ∧
    applyChain kw (webmFilters o) f =
      boxblurFrame o.edgeBlur o.edgeBlur
        (applyChromakey kw o.color o.similarity o.blend f) := by
  have h1 : webmFilters o = [VFilter.chromakey o.color o.similarity o.blend,
      VFilter.boxblur o.edgeBlur o.edgeBlur 1] := by
    simp [webmFilters, h]
  refine ⟨h1, rfl, ?_⟩
  rw [h1]; rfl

/-- WebM job options with edge blur 1. -/
def oBlurWebm : ProcessOptions :=
  { inputPath := "in.mp4", outputPath := "out.webm", color := "0x00ff00",
    similarity := 0.4, blend := 0.1, edgeBlur := 1 }

/-- A 2 by 1 frame: a red pixel next to a pure green one. -/
def twoPxFrame : Frame :=
  { width := 2, height := 1,
    px := fun x _ => if x = 0 then ⟨1, 0, 0, 1⟩ else ⟨0, 1, 0, 1⟩ }

/-- Witness for C6 (amended): the concrete blur job decomposes into the
full-frame blur of the keyed frame. -/
theorem c6_blur_full_frame_witness :
    applyChain kwGreen (webmFilters oBlurWebm) twoPxFrame =
      boxblurFrame oBlurWebm.edgeBlur oBlurWebm.edgeBlur
        (applyChromakey kwGreen oBlurWebm.color oBlurWebm.similarity
          oBlurWebm.blend twoPxFrame) :=
  (c6_blur_full_frame oBlurWebm (by norm_num [oBlurWebm]) kwGreen twoPxFrame).2.2

/-- Counterexample for C6: on a red pixel adjacent to a keyed green pixel,
the emitted blur stage changes the red color channel from 1 to 1/2 even
though chromakey alone leaves it at 1 — the spatial blur is applied to the
color data of the frame, not to the alpha mask only. -/
theorem c6_counterexample :
    ((runProcessVideo kwGreen oBlurWebm twoPxFrame).px 0 0).r = 1 / 2 ∧
    ((applyChromakey kwGreen oBlurWebm.color oBlurWebm.similarity oBlurWebm.blend
        twoPxFrame).px 0 0).r = 1 ∧
    (twoPxFrame.px 0 0).r = 1 := by
  have hww : isWebM oBlurWebm.outputPath = true := by decide
  have hrun : runProcessVideo kwGreen oBlurWebm twoPxFrame =
      applyChain kwGreen (webmFilters oBlurWebm) twoPxFrame := by
    simp [runProcessVideo, runCommand, buildCommand, hww]
  have hchain := (c6_blur_full_frame oBlurWebm (by norm_num [oBlurWebm])
    kwGreen twoPxFrame).2.2
  have hck0 : (applyChromakey kwGreen oBlurWebm.color oBlurWebm.similarity
      oBlurWebm.blend twoPxFrame).px 0 0 = ⟨1, 0, 0, 1⟩ := by
    simp [applyChromakey, twoPxFrame, kwGreen, RGBA.mk.injEq]
  have hck1 : (applyChromakey kwGreen oBlurWebm.color oBlurWebm.similarity
      oBlurWebm.blend twoPxFrame).px 1 0 = ⟨0, 1, 0, 0⟩ := by
    simp [applyChromakey, twoPxFrame, kwGreen, RGBA.mk.injEq]
  have hfl : ((oBlurWebm.edgeBlur).floor).toNat = 1 := rfl
  have hcw2 : clampWindow 0 1 2 = [0, 1] := by decide
  have hcw1 : clampWindow 0 1 1 = [0] := by decide
  refine ⟨?_, by rw [hck0], by simp [twoPxFrame]⟩
  rw [hrun, hchain]
  simp only [boxblurFrame, hfl, Nat.iterate]
  have hwid : (applyChromakey kwGreen oBlurWebm.color oBlurWebm.similarity
      oBlurWebm.blend twoPxFrame).width = 2 := rfl
  have hhei : (applyChromakey kwGreen oBlurWebm.color oBlurWebm.similarity
      oBlurWebm.blend twoPxFrame).height = 1 := rfl
  simp only [boxblurOnce, hwid, hhei, hcw2, hcw1, List.flatMap, List.map,
    List.flatten, List.append_nil, hck0, hck1]
  simp [boxAvg]

/-- JS single-character String.prototype.split over a character-list model of
strings: splitting the empty string gives one empty segment, a separator
starts a new segment. -/
def splitOnChar (sep : Char) : List Char → List (List Char)
  | [] => [[]]
  | c :: cs =>
    if c = sep then [] :: splitOnChar sep cs
    else
      match splitOnChar sep cs with
      | [] => [[c]]
      | s :: ss => (c :: s) :: ss

/-- JS Array.prototype.join with a single-character separator. -/
def joinSep (sep : Char) : List (List Char) → List Char
  | [] => []
  | [s] => s
  | s :: rest => s ++ sep :: joinSep sep rest

/-- Code points left unescaped by JS encodeURIComponent: letters, digits and
the marks minus, underscore, dot, exclamation, tilde, asterisk, quote and
parentheses. -/
def isUnreservedCode (n : Nat) : Bool :=
  (decide (65 ≤ n) && decide (n ≤ 90)) || (decide (97 ≤ n) && decide (n ≤ 122)) ||
  (decide (48 ≤ n) && decide (n ≤ 57)) ||
  n == 45 || n == 95 || n == 46 || n == 33 || n == 126 || n == 42 ||
  n == 39 || n == 40 || n == 41

/-- Character form of the unescaped-set test. -/
def isUnreservedChar (c : Char) : Bool :=
  isUnreservedCode c.toNat

/-- UTF-8 encoding of one code point, as used by percent-escaping. -/
def utf8Bytes (n : Nat) : List Nat :=
  if n < 128 then [n]
  else if n < 2048 then [192 + n / 64, 128 + n % 64]
  else if n < 65536 then [224 + n / 4096, 128 + n / 64 % 64, 128 + n % 64]
  else [240 + n / 262144, 128 + n / 4096 % 64, 128 + n / 64 % 64, 128 + n % 64]

/-- Uppercase hexadecimal digit, as emitted by JS percent-escapes. -/
def hexDigitU (n : Nat) : Char :=
  if n < 10 then Char.ofNat (48 + n) else Char.ofNat (55 + n)

/-- Percent-escape of one byte. -/
def pctByte (b : Nat) : List Char :=
  ['%', hexDigitU (b / 16), hexDigitU (b % 16)]

/-- JS encodeURIComponent over the character-list model: unescaped characters
pass through, all others are percent-escaped byte by byte of their UTF-8
encoding. -/
def encodeURIComponent (s : List Char) : List Char :=
  s.flatMap (fun c =>
    if isUnreservedChar c then [c] else (utf8Bytes c.toNat).flatMap pctByte)

/-- Value of one hexadecimal digit character, either case. -/
def hexVal (c : Char) : Option Nat :=
  if 48 ≤ c.toNat ∧ c.toNat ≤ 57 then some (c.toNat - 48)
  else if 65 ≤ c.toNat ∧ c.toNat ≤ 70 then some (c.toNat - 55)
  else if 97 ≤ c.toNat ∧ c.toNat ≤ 102 then some (c.toNat - 87)
  else Option.none

/-- Token stream of a percent-escaped string: escaped bytes and plain
characters. -/
inductive UriTok where
  | byte (b : Nat)
  | chr (c : Char)
deriving DecidableEq, Repr

/-- Tokenization step of decodeURIComponent: each percent-escape becomes a
byte token, everything else a character token; a malformed escape fails. -/
def uriToks : List Char → Option (List UriTok)
  | [] => some []
  | c :: cs =>
    if c = '%' then
      match cs with
      | h1 :: h2 :: rest =>
        match hexVal h1, hexVal h2 with
        | some a, some b => (uriToks rest).map (fun ts => UriTok.byte (16 * a + b) :: ts)
        | _, _ => Option.none
      | _ => Option.none
    else (uriToks cs).map (fun ts => UriTok.chr c :: ts)

/-- UTF-8 decoding step of decodeURIComponent: character tokens pass through,
maximal byte-token runs are decoded as UTF-8 sequences; malformed sequences
fail. -/
def utf8DecodeToks : List UriTok → Option (List Char)
  | [] => some []
  | UriTok.chr c :: rest => (utf8DecodeToks rest).map (fun l => c :: l)
  | UriTok.byte b1 :: rest =>
    if b1 < 128 then (utf8DecodeToks rest).map (fun l => Char.ofNat b1 :: l)
    else if 192 ≤ b1 ∧ b1 < 224 then
      match rest with
      | UriTok.byte b2 :: rest2 =>
        if 128 ≤ b2 ∧ b2 < 192 then
          (utf8DecodeToks rest2).map (fun l =>
            Char.ofNat ((b1 - 192) * 64 + (b2 - 128)) :: l)
        else Option.none
      | _ => Option.none
    else if 224 ≤ b1 ∧ b1 < 240 then
      match rest with
      | UriTok.byte b2 :: UriTok.byte b3 :: rest3 =>
        if (128 ≤ b2 ∧ b2 < 192) ∧ (128 ≤ b3 ∧ b3 < 192) then
          (utf8DecodeToks rest3).map (fun l =>
            Char.ofNat ((b1 - 224) * 4096 + (b2 - 128) * 64 + (b3 - 128)) :: l)
        else Option.none
      | _ => Option.none
    else if 240 ≤ b1 ∧ b1 < 248 then
      match rest with
      | UriTok.byte b2 :: UriTok.byte b3 :: UriTok.byte b4 :: rest4 =>
        if (128 ≤ b2 ∧ b2 < 192) ∧ (128 ≤ b3 ∧ b3 < 192) ∧ (128 ≤ b4 ∧ b4 < 192) then
          (utf8DecodeToks rest4).map (fun l =>
            Char.ofNat ((b1 - 240) * 262144 + (b2 - 128) * 4096 +
              (b3 - 128) * 64 + (b4 - 128)) :: l)
        else Option.none
      | _ => Option.none
    else Option.none

/-- JS decodeURIComponent over the character-list model. -/
def decodeURIComponent (s : List Char) : Option (List Char) :=
  (uriToks s).bind utf8DecodeToks

/-- Modelled from Node path.posix.normalize, used by path.join: segment list
normalization resolving dot and dot-dot segments and dropping empty ones,
keeping leading dot-dots of relative paths. -/
def resolveDots : List (List Char) → List (List Char) → List (List Char)
  | acc, [] => acc.reverse
  | acc, s :: rest =>
    if s = [] ∨ s = ['.'] then resolveDots acc rest
    else if s = ['.', '.'] then
      match acc with
      | [] => resolveDots [s] rest
      | t :: acc2 =>
        if t = ['.', '.'] then resolveDots (s :: acc) rest
        else resolveDots acc2 rest
    else resolveDots (s :: acc) rest

/-- Modelled from Node path.posix.normalize on a relative path: split on the
separator, resolve dots, rejoin; an empty result is the dot path. -/
def normalizePath (p : List Char) : List Char :=
  let parts := resolveDots [] (splitOnChar '/' p)
  if parts = [] then ['.'] else joinSep '/' parts

/-- Modelled from Node path.posix.join over already-split arguments: empty
arguments are dropped, the rest joined with the separator and normalized; no
arguments give the dot path. -/
def pathJoinSegs (segs : List (List Char)) : List Char :=
  let parts := segs.filter (fun s => decide (s ≠ []))
  if parts = [] then ['.'] else normalizePath (joinSep '/' parts)

/-- The get-video-url handler (electron.js lines 153-158): split the file
path on the platform separator (the POSIX separator in this model), percent
encode each segment, join with slashes and prepend the scheme. -/
def getVideoUrl (filePath : List Char) : List Char :=
  ("local-video://".data) ++
    joinSep '/' ((splitOnChar '/' filePath).map encodeURIComponent)

/-- The anchored scheme strip of the protocol handler (electron.js line 86). -/
def dropScheme (url : List Char) : List Char :=
  if url.take 14 = ("local-video://".data) then url.drop 14 else url

/-- The local-video protocol handler path reconstruction (electron.js lines
86-90): strip the scheme, split on slashes, percent-decode each segment and
join the segments with Node path.join; a decode failure is the caught error
branch of the handler. -/
def localVideoResolve (url : List Char) : Option (List Char) :=
  ((splitOnChar '/' (dropScheme url)).mapM decodeURIComponent).map pathJoinSegs

/-- Splitting never yields an empty segment list. -/
theorem splitOnChar_ne_nil (sep : Char) (l : List Char) :
    splitOnChar sep l ≠ [] := by
  induction l with
  | nil => simp [splitOnChar]
  | cons c cs ih =>
    by_cases h : c = sep
    · simp [splitOnChar, h]
    · simp only [splitOnChar, if_neg h]
      cases hs : splitOnChar sep cs with
      | nil => simp
      | cons s ss => simp

/-- Segments produced by splitting do not contain the separator. -/
theorem splitOnChar_no_sep (sep : Char) (l : List Char) :
    ∀ s ∈ splitOnChar sep l, sep ∉ s := by
  induction l with
  | nil =>
    intro s hs
    simp [splitOnChar] at hs
    simp [hs]
  | cons c cs ih =>
    intro s hs
    by_cases h : c = sep
    · simp only [splitOnChar, if_pos h, List.mem_cons] at hs
      rcases hs with rfl | hs
      · simp
      · exact ih s hs
    · simp only [splitOnChar, if_neg h] at hs
      cases hsp : splitOnChar sep cs with
      | nil => exact absurd hsp (splitOnChar_ne_nil sep cs)
      | cons s0 ss =>
        rw [hsp] at hs
        rcases List.mem_cons.mp hs with rfl | hstail
        · intro hmem
          rcases List.mem_cons.mp hmem with rfl | hs0
          · exact h rfl
          · exact ih s0 (hsp ▸ List.mem_cons_self s0 ss) hs0
        · exact ih s (hsp ▸ List.mem_cons_of_mem s0 hstail)

/-- Characters of a split segment are characters of the split string. -/
theorem mem_of_mem_splitOnChar (sep c : Char) (l : List Char) :
    ∀ s ∈ splitOnChar sep l, c ∈ s → c ∈ l := by
  induction l with
  | nil =>
    intro s hs hc
    simp [splitOnChar] at hs
    subst hs
    simp at hc
  | cons d cs ih =>
    intro s hs hc
    by_cases h : d = sep
    · simp only [splitOnChar, if_pos h, List.mem_cons] at hs
      rcases hs with rfl | hs
      · simp at hc
      · exact List.mem_cons_of_mem d (ih s hs hc)
    · simp only [splitOnChar, if_neg h] at hs
      cases hsp : splitOnChar sep cs with
      | nil => exact absurd hsp (splitOnChar_ne_nil sep cs)
      | cons s0 ss =>
        rw [hsp] at hs
        rcases List.mem_cons.mp hs with rfl | hstail
        · rcases List.mem_cons.mp hc with rfl | hcs0
          · exact List.mem_cons_self _ _
          · exact List.mem_cons_of_mem d
              (ih s0 (hsp ▸ List.mem_cons_self s0 ss) hcs0)
        · exact List.mem_cons_of_mem d
            (ih s (hsp ▸ List.mem_cons_of_mem s0 hstail) hc)

/-- Joining undoes splitting. -/
theorem joinSep_splitOnChar (sep : Char) (l : List Char) :
    joinSep sep (splitOnChar sep l) = l := by
  induction l with
  | nil => rfl
  | cons c cs ih =>
    by_cases h : c = sep
    · subst h
      simp only [splitOnChar, if_pos rfl]
      cases hsp : splitOnChar c cs with
      | nil => exact absurd hsp (splitOnChar_ne_nil c cs)
      | cons s ss =>
        rw [hsp] at ih
        simp only [joinSep, List.nil_append]
        rw [ih]
    · simp only [splitOnChar, if_neg h]
      cases hsp : splitOnChar sep cs with
      | nil => exact absurd hsp (splitOnChar_ne_nil sep cs)
      | cons s ss =>
        rw [hsp] at ih
        cases ss with
        | nil =>
          simp only [joinSep] at ih ⊢
          rw [ih]
        | cons s1 ss1 =>
          simp only [joinSep, List.cons_append] at ih ⊢
          rw [ih]

/-- Splitting a separator-free string gives that single segment. -/
theorem splitOnChar_eq_single (sep : Char) (s : List Char) (h : sep ∉ s) :
    splitOnChar sep s = [s] := by
  induction s with
  | nil => rfl
  | cons c cs ih =>
    have hc : c ≠ sep := fun hh => h (hh ▸ List.mem_cons_self c cs)
    simp only [splitOnChar, if_neg hc]
    rw [ih (fun hm => h (List.mem_cons_of_mem c hm))]

/-- Splitting after a separator-free chunk and a separator peels the chunk. -/
theorem splitOnChar_append (sep : Char) (s t : List Char) (h : sep ∉ s) :
    splitOnChar sep (s ++ sep :: t) = s :: splitOnChar sep t := by
  induction s with
  | nil => simp [splitOnChar]
  | cons c cs ih =>
    have hc : c ≠ sep := fun hh => h (hh ▸ List.mem_cons_self c cs)
    simp only [List.cons_append, splitOnChar, if_neg hc, List.append_eq]
    rw [ih (fun hm => h (List.mem_cons_of_mem c hm))]

/-- Splitting undoes joining for nonempty separator-free segment lists. -/
theorem splitOnChar_joinSep (sep : Char) (ss : List (List Char))
    (hne : ss ≠ []) (hsep : ∀ s ∈ ss, sep ∉ s) :
    splitOnChar sep (joinSep sep ss) = ss := by
  induction ss with
  | nil => exact absurd rfl hne
  | cons s rest ih =>
    cases rest with
    | nil =>
      simp only [joinSep]
      exact splitOnChar_eq_single sep s (hsep s (List.mem_cons_self s []))
    | cons s1 rest1 =>
      have hjs : joinSep sep (s :: s1 :: rest1) =
          s ++ sep :: joinSep sep (s1 :: rest1) := rfl
      rw [hjs, splitOnChar_append sep s _ (hsep s (List.mem_cons_self _ _)),
        ih (by simp) (fun x hx => hsep x (List.mem_cons_of_mem s hx))]

/-- An uppercase hex digit of a value below 16 is never the slash. -/
theorem hexDigitU_ne_slash (d : Nat) (hd : d < 16) : hexDigitU d ≠ '/' := by
  interval_cases d <;> decide

/-- Hex digits round-trip through formatting and parsing. -/
theorem hexVal_hexDigitU (d : Nat) (hd : d < 16) :
    hexVal (hexDigitU d) = some d := by
  interval_cases d <;> decide

/-- The percent encoding of an ASCII string never contains the slash, which
is always escaped. -/
theorem encodeURIComponent_no_slash (s : List Char)
    (h : ∀ c ∈ s, c.toNat < 128) : '/' ∉ encodeURIComponent s := by
  intro hmem
  simp only [encodeURIComponent, List.mem_flatMap] at hmem
  obtain ⟨d, hd, hcd⟩ := hmem
  by_cases hu : isUnreservedChar d
  · rw [if_pos hu] at hcd
    simp only [List.mem_singleton] at hcd
    subst hcd
    exact absurd hu (by decide)
  · rw [if_neg hu] at hcd
    have hb : utf8Bytes d.toNat = [d.toNat] := by
      simp [utf8Bytes, h d hd]
    rw [hb] at hcd
    simp only [List.flatMap_cons, List.flatMap_nil, List.append_nil, pctByte,
      List.mem_cons, List.not_mem_nil, or_false] at hcd
    have h16 : d.toNat / 16 < 16 :=
      Nat.div_lt_of_lt_mul (lt_trans (h d hd) (by norm_num))
    have h16b : d.toNat % 16 < 16 := Nat.mod_lt _ (by norm_num)
    rcases hcd with hcd | hcd | hcd
    · exact absurd hcd (by decide)
    · exact hexDigitU_ne_slash _ h16 hcd.symm
    · exact hexDigitU_ne_slash _ h16b hcd.symm

/-- Unfolding of the tokenizer on a non-escape character. -/
theorem uriToks_cons_ne (c : Char) (h : c ≠ '%') (r : List Char) :
    uriToks (c :: r) = (uriToks r).map (fun ts => UriTok.chr c :: ts) := by
  nth_rewrite 1 [uriToks.eq_def]
  show (if c = '%' then _ else _) = _
  rw [if_neg h]

/-- Unfolding of the tokenizer on a well-formed percent escape. -/
theorem uriToks_pct (h1 h2 : Char) (a b : Nat) (ha : hexVal h1 = some a)
    (hb : hexVal h2 = some b) (r : List Char) :
    uriToks ('%' :: h1 :: h2 :: r) =
      (uriToks r).map (fun ts => UriTok.byte (16 * a + b) :: ts) := by
  nth_rewrite 1 [uriToks.eq_def]
  show (if ('%' : Char) = '%' then _ else _) = _
  rw [if_pos rfl]
  show (match hexVal h1, hexVal h2 with
    | some a, some b => (uriToks r).map (fun ts => UriTok.byte (16 * a + b) :: ts)
    | _, _ => Option.none) = _
  rw [ha, hb]

/-- Unfolding of the UTF-8 token decoder on a single ASCII byte token. -/
theorem utf8DecodeToks_byte (b : Nat) (hb : b < 128) (ts : List UriTok) :
    utf8DecodeToks (UriTok.byte b :: ts) =
      (utf8DecodeToks ts).map (fun l => Char.ofNat b :: l) := by
  cases ts with
  | nil =>
    show (if b < 128 then _ else _) = _
    rw [if_pos hb]
  | cons t ts2 =>
    cases t with
    | chr c =>
      show (if b < 128 then _ else _) = _
      rw [if_pos hb]
    | byte b2 =>
      cases ts2 with
      | nil =>
        show (if b < 128 then _ else _) = _
        rw [if_pos hb]
      | cons t3 ts3 =>
        cases t3 with
        | chr c3 =>
          show (if b < 128 then _ else _) = _
          rw [if_pos hb]
        | byte b3 =>
          cases ts3 with
          | nil =>
            show (if b < 128 then _ else _) = _
            rw [if_pos hb]
          | cons t4 ts4 =>
            cases t4 with
            | chr c4 =>
              show (if b < 128 then _ else _) = _
              rw [if_pos hb]
            | byte b4 =>
              show (if b < 128 then _ else _) = _
              rw [if_pos hb]

/-- The token a single encoded character contributes. -/
def encTok (c : Char) : UriTok :=
  if isUnreservedChar c then UriTok.chr c else UriTok.byte c.toNat

/-- Tokenizing the encoding of one ASCII character prepends its token. -/
theorem uriToks_encChar (c : Char) (hc : c.toNat < 128) (r : List Char) :
    uriToks ((if isUnreservedChar c then [c]
        else (utf8Bytes c.toNat).flatMap pctByte) ++ r) =
      (uriToks r).map (fun ts => encTok c :: ts) := by
  by_cases hu : isUnreservedChar c
  · rw [if_pos hu]
    have hcp : c ≠ '%' := by
      intro h
      subst h
      exact absurd hu (by decide)
    rw [List.singleton_append, uriToks_cons_ne c hcp r]
    simp [encTok, hu]
  · rw [if_neg hu]
    have hb : utf8Bytes c.toNat = [c.toNat] := by simp [utf8Bytes, hc]
    rw [hb]
    have h16 : c.toNat / 16 < 16 :=
      Nat.div_lt_of_lt_mul (lt_trans hc (by norm_num))
    have h16b : c.toNat % 16 < 16 := Nat.mod_lt _ (by norm_num)
    simp only [List.flatMap_cons, List.flatMap_nil, List.append_nil, pctByte,
      List.cons_append, List.nil_append]
    rw [uriToks_pct _ _ _ _ (hexVal_hexDigitU _ h16) (hexVal_hexDigitU _ h16b) r]
    simp [encTok, if_neg hu, Nat.div_add_mod]

/-- Tokenizing a whole encoded ASCII string yields the character tokens. -/
theorem uriToks_encode (s : List Char) (h : ∀ c ∈ s, c.toNat < 128) :
    uriToks (encodeURIComponent s) = some (s.map encTok) := by
  induction s with
  | nil => rfl
  | cons c cs ih =>
    have hext : encodeURIComponent (c :: cs) =
        (if isUnreservedChar c then [c]
          else (utf8Bytes c.toNat).flatMap pctByte) ++ encodeURIComponent cs := rfl
    rw [hext, uriToks_encChar c (h c (List.mem_cons_self c cs)),
      ih (fun d hd => h d (List.mem_cons_of_mem c hd))]
    rfl

/-- Decoding the token of one ASCII character prepends the character. -/
theorem utf8DecodeToks_encTok (c : Char) (hc : c.toNat < 128)
    (ts : List UriTok) :
    utf8DecodeToks (encTok c :: ts) =
      (utf8DecodeToks ts).map (fun l => c :: l) := by
  by_cases hu : isUnreservedChar c
  · rw [encTok, if_pos hu]
    rfl
  · rw [encTok, if_neg hu]
    rw [utf8DecodeToks_byte c.toNat hc ts, Char.ofNat_toNat]

/-- Decoding the token stream of an ASCII string restores the string. -/
theorem utf8DecodeToks_map (s : List Char) (h : ∀ c ∈ s, c.toNat < 128) :
    utf8DecodeToks (s.map encTok) = some s := by
  induction s with
  | nil => rfl
  | cons c cs ih =>
    rw [List.map_cons, utf8DecodeToks_encTok c (h c (List.mem_cons_self c cs)),
      ih (fun d hd => h d (List.mem_cons_of_mem c hd))]
    rfl

/-- Percent decoding inverts percent encoding on ASCII strings. -/
theorem decode_encode (s : List Char) (h : ∀ c ∈ s, c.toNat < 128) :
    decodeURIComponent (encodeURIComponent s) = some s := by
  unfold decodeURIComponent
  rw [uriToks_encode s h]
  simpa using utf8DecodeToks_map s h

/-- Segmentwise decoding of segmentwise-encoded ASCII segments. -/
theorem mapM_decode_encode (ss : List (List Char))
    (h : ∀ s ∈ ss, ∀ c ∈ s, c.toNat < 128) :
    (ss.map encodeURIComponent).mapM decodeURIComponent = some ss := by
  induction ss with
  | nil => rfl
  | cons s rest ih =>
    rw [List.map_cons, List.mapM_cons,
      decode_encode s (h s (List.mem_cons_self s rest)),
      ih (fun x hx => h x (List.mem_cons_of_mem s hx))]
    rfl

/-- Dot resolution is the identity on segment lists without empty, dot or
dot-dot segments. -/
theorem resolveDots_no_dots (parts : List (List Char)) :
    ∀ acc, (∀ s ∈ parts, s ≠ [] ∧ s ≠ ['.'] ∧ s ≠ ['.', '.']) →
      resolveDots acc parts = acc.reverse ++ parts := by
  induction parts with
  | nil =>
    intro acc h
    simp [resolveDots]
  | cons s rest ih =>
    intro acc h
    obtain ⟨h1, h2, h3⟩ := h s (List.mem_cons_self s rest)
    have hcond : ¬ (s = [] ∨ s = ['.']) := by simp [h1, h2]
    have hstep : resolveDots acc (s :: rest) = resolveDots (s :: acc) rest := by
      show (if s = [] ∨ s = ['.'] then _
        else if s = ['.', '.'] then _ else resolveDots (s :: acc) rest) = _
      rw [if_neg hcond, if_neg h3]
    rw [hstep, ih (s :: acc) (fun x hx => h x (List.mem_cons_of_mem s hx))]
    simp

/-- Node path.join over nonempty dot-free separator-free segments is a plain
join. -/
theorem pathJoinSegs_eq (segs : List (List Char)) (hne : segs ≠ [])
    (hseg : ∀ s ∈ segs, s ≠ [] ∧ s ≠ ['.'] ∧ s ≠ ['.', '.'])
    (hsl : ∀ s ∈ segs, '/' ∉ s) :
    pathJoinSegs segs = joinSep '/' segs := by
  unfold pathJoinSegs
  have hfil : segs.filter (fun s => decide (s ≠ [])) = segs :=
    List.filter_eq_self.mpr (fun s hs => by simp [(hseg s hs).1])
  rw [hfil, if_neg hne]
  unfold normalizePath
  rw [splitOnChar_joinSep '/' segs hne hsl,
    resolveDots_no_dots segs [] hseg]
  simp only [List.reverse_nil, List.nil_append]
  rw [if_neg hne]

/-- C10 (amended): over ASCII paths, encoding with get-video-url and decoding
with the local-video protocol handler restores the original path exactly when
no separator-split segment is empty, a dot, or a dot-dot; paths with such
segments (in particular absolute paths, whose leading separator yields an
empty first segment) are normalized by Node path.join and can differ. -/
theorem c10_roundtrip_normalized (p : List Char)
    (hseg : ∀ s ∈ splitOnChar '/' p, s ≠ [] ∧ s ≠ ['.'] ∧ s ≠ ['.', '.'])
    (hascii : ∀ c ∈ p, c.toNat < 128) :
    localVideoResolve (getVideoUrl p) = some p := by
  unfold localVideoResolve getVideoUrl
  have h14 : ("local-video://".data).length = 14 := by decide
  have hdrop : dropScheme (("local-video://".data) ++
      joinSep '/' ((splitOnChar '/' p).map encodeURIComponent)) =
      joinSep '/' ((splitOnChar '/' p).map encodeURIComponent) := by
    unfold dropScheme
    rw [← h14, List.take_left, if_pos rfl, List.drop_left]
  rw [hdrop]
  have hsegascii : ∀ s ∈ splitOnChar '/' p, ∀ c ∈ s, c.toNat < 128 :=
    fun s hs c hc => hascii c (mem_of_mem_splitOnChar '/' c p s hs hc)
  have hencsl : ∀ s ∈ (splitOnChar '/' p).map encodeURIComponent, '/' ∉ s := by
    intro s hs
    obtain ⟨t, ht, rfl⟩ := List.mem_map.mp hs
    exact encodeURIComponent_no_slash t (hsegascii t ht)
  have hne : (splitOnChar '/' p).map encodeURIComponent ≠ [] := by
    intro h
    exact splitOnChar_ne_nil '/' p (List.map_eq_nil_iff.mp h)
  rw [splitOnChar_joinSep '/' _ hne hencsl,
    mapM_decode_encode _ hsegascii]
  have hpj : pathJoinSegs (splitOnChar '/' p) = p := by
    rw [pathJoinSegs_eq _ (splitOnChar_ne_nil '/' p) hseg
      (splitOnChar_no_sep '/' p), joinSep_splitOnChar]
  show Option.map pathJoinSegs (some (splitOnChar '/' p)) = some p
  rw [show Option.map pathJoinSegs (some (splitOnChar '/' p)) =
    some (pathJoinSegs (splitOnChar '/' p)) from rfl, hpj]

/-- Witness for C10 (amended): a relative ASCII path with a space survives the
round trip. -/
theorem c10_roundtrip_normalized_witness :
    localVideoResolve (getVideoUrl ("a/b c.mp4".data)) =
      some ("a/b c.mp4".data) :=
  c10_roundtrip_normalized ("a/b c.mp4".data) (by decide) (by decide)

/-- Counterexample for C10: the absolute path slash-a-slash-b round-trips to
the relative path a-slash-b — Node path.join drops the empty leading segment,
so the round trip is not the identity on every file path. -/
theorem c10_counterexample :
    localVideoResolve (getVideoUrl ("/a/b".data)) = some ("a/b".data) ∧
    ("a/b".data) ≠ ("/a/b".data) := by decide
